import Mathlib

/-!
Verification of the provider adapter layer of the core-ai-proxy repository.

The definitions below are shallow embeddings of the TypeScript source:

* src/proxy/adapter.ts          — routeRequest (model-prefix dispatch)
* src/proxy/handlers/workers-ai.ts — model registry, findModelForFeatures,
  analyzeComplexity, handleRequest dispatch, extractToolCalls, cleanJSON,
  estimateTokens, createStreamingResponse
* src/proxy/handlers/ollama.ts  — ollama handler (usage mapping, streaming)
* src/proxy/handlers/openai.ts, gemini.ts, anthropic.ts — response usage
  mapping and SSE stream production

External library calls (JSON.parse, JSON.stringify, SHA-256, the upstream
inference clients) are modelled as explicit parameters or as already-parsed
input values; everything the repository itself computes is translated
directly.
-/

/-- Embedding of JS String.prototype.startsWith: the pattern's characters
are a prefix of the string's characters. -/
def startsWithStr (p s : String) : Bool :=
  p.data.isPrefixOf s.data

/-- Dispatch target selected by routeRequest in src/proxy/adapter.ts. -/
inductive RouteTarget where
  | openai
  | anthropic
  | gemini
  | workersAI
  | unsupported (msg : String)
deriving DecidableEq, Repr

/-- Embedding of routeRequest (src/proxy/adapter.ts, lines 10-35): the
provider is detected from the literal prefix of the model string, first
match wins, and a model matching no prefix throws
`Unsupported model: ...`.  The source contains no branch for the
`ollama/` prefix even though src/proxy/handlers/ollama.ts exists. -/
def routeModel (model : String) : RouteTarget :=
  if startsWithStr "gpt-" model then .openai
  else if startsWithStr "claude-" model then .anthropic
  else if startsWithStr "gemini-" model then .gemini
  else if startsWithStr "@cf/" model || model == "workers-ai" then .workersAI
  else .unsupported ("Unsupported model: " ++ model)

/-- Embedding of the model-name rewrite performed by the ollama handler
(src/proxy/handlers/ollama.ts): `request.model.replace(/^ollama\//, '')`
removes a leading `ollama/` prefix. -/
def ollamaStripModel (model : String) : String :=
  if startsWithStr "ollama/" model then model.drop 7 else model

/-- The complexity tier of a Workers-AI model
(src/proxy/handlers/workers-ai.ts, ModelCapabilities.complexity). -/
inductive Complexity where
  | fast
  | balanced
  | powerful
deriving DecidableEq, Repr

/-- Embedding of the ModelCapabilities interface
(src/proxy/handlers/workers-ai.ts, lines 18-26). -/
structure ModelCapabilities where
  id : String
  name : String
  supportsTools : Bool
  supportsJSON : Bool
  supportsStreaming : Bool
  complexity : Complexity
  contextWindow : Nat
deriving DecidableEq, Repr

/-- Embedding of the WORKERS_AI_MODELS registry constant
(src/proxy/handlers/workers-ai.ts, lines 32-78). -/
def WORKERS_AI_MODELS : List ModelCapabilities :=
  [ { id := "@cf/meta/llama-3.1-8b-instruct", name := "Llama 3.1 8B",
      supportsTools := true, supportsJSON := true, supportsStreaming := true,
      complexity := .fast, contextWindow := 8192 },
    { id := "@cf/meta/llama-3.3-70b-instruct-fp8-fast", name := "Llama 3.3 70B",
      supportsTools := true, supportsJSON := true, supportsStreaming := true,
      complexity := .powerful, contextWindow := 16384 },
    { id := "@cf/meta/llama-3-8b-instruct", name := "Llama 3 8B",
      supportsTools := false, supportsJSON := false, supportsStreaming := true,
      complexity := .fast, contextWindow := 8192 },
    { id := "@cf/mistral/mistral-7b-instruct-v0.1", name := "Mistral 7B",
      supportsTools := false, supportsJSON := false, supportsStreaming := true,
      complexity := .fast, contextWindow := 8192 },
    { id := "@cf/qwen/qwen1.5-14b-chat-awq", name := "Qwen 1.5 14B",
      supportsTools := false, supportsJSON := true, supportsStreaming := true,
      complexity := .balanced, contextWindow := 8192 } ]

/-- Embedding of getModelCapabilities (src/proxy/handlers/workers-ai.ts,
lines 83-85): exact lookup of a model id in the registry. -/
def getModelCapabilities (modelId : String) : Option ModelCapabilities :=
  WORKERS_AI_MODELS.find? (fun m => m.id == modelId)

/-- The requirements record taken by findModelForFeatures
(src/proxy/handlers/workers-ai.ts, lines 90-94); absent optional fields are
falsy in the source and are modelled as `false` / `none`. -/
structure FeatureRequirements where
  tools : Bool
  json : Bool
  complexity : Option Complexity
deriving DecidableEq, Repr

/-- The exact-requirement filter predicate of findModelForFeatures
(src/proxy/handlers/workers-ai.ts, lines 96-101). -/
def meetsExact (req : FeatureRequirements) (m : ModelCapabilities) : Bool :=
  (!req.tools || m.supportsTools) && (!req.json || m.supportsJSON) &&
    (match req.complexity with
     | none => true
     | some c => m.complexity == c)

/-- The relaxed filter predicate of findModelForFeatures
(src/proxy/handlers/workers-ai.ts, lines 104-110): the complexity
constraint is dropped, tools/json are kept. -/
def meetsRelaxed (req : FeatureRequirements) (m : ModelCapabilities) : Bool :=
  (!req.tools || m.supportsTools) && (!req.json || m.supportsJSON)

/-- Numeric complexity order used by the sort comparator
(src/proxy/handlers/workers-ai.ts, line 120). -/
def complexityOrder : Complexity → Nat
  | .fast => 0
  | .balanced => 1
  | .powerful => 2

/-- The descending-complexity comparison used to sort candidates
(src/proxy/handlers/workers-ai.ts, lines 119-122): a precedes b when b is
not more complex than a. -/
def moreCapable (a b : ModelCapabilities) : Prop :=
  complexityOrder b.complexity ≤ complexityOrder a.complexity

instance : DecidableRel moreCapable :=
  fun _ _ => Nat.decLe _ _

instance : IsTotal ModelCapabilities moreCapable :=
  ⟨fun a b => Nat.le_total (complexityOrder b.complexity) (complexityOrder a.complexity)⟩

instance : IsTrans ModelCapabilities moreCapable :=
  ⟨fun _ _ _ h h' => Nat.le_trans h' h⟩

/-- Embedding of findModelForFeatures (src/proxy/handlers/workers-ai.ts,
lines 90-127), generalised over the registry list it searches (the source
closes over the WORKERS_AI_MODELS constant).  `none` models the JS value
`undefined`, which the source can only produce when the registry is
empty. -/
def findModelForFeaturesIn (registry : List ModelCapabilities)
    (req : FeatureRequirements) : Option ModelCapabilities :=
  let exact := registry.filter (meetsExact req)
  let candidates := if exact.isEmpty then registry.filter (meetsRelaxed req) else exact
  if candidates.isEmpty then
    match registry.find? (fun m => m.complexity == Complexity.powerful) with
    | some m => some m
    | none => registry.head?
  else if req.tools || req.json then
    (List.insertionSort moreCapable candidates).head?
  else
    candidates.head?

/-- findModelForFeatures as called in the source: the search runs against
the fixed WORKERS_AI_MODELS registry. -/
def findModelForFeatures (req : FeatureRequirements) : Option ModelCapabilities :=
  findModelForFeaturesIn WORKERS_AI_MODELS req

/-- Substring containment on character lists: some suffix of s has pat as a
prefix.  Used to embed the JS `String.prototype.includes` and the regex
body checks of the source. -/
def containsSeg (pat : List Char) : List Char → Bool
  | [] => pat.isPrefixOf ([] : List Char)
  | c :: rest => pat.isPrefixOf (c :: rest) || containsSeg pat rest

/-- Embedding of `s.includes(pat)` on Lean strings. -/
def includesStr (s pat : String) : Bool :=
  containsSeg pat.data s.data

/-- The verdict computation of analyzeComplexity
(src/proxy/handlers/workers-ai.ts, line 181):
`result.toLowerCase().includes('high') ? 'high' : 'low'`. -/
def triageVerdict (inferResult : String) : String :=
  if includesStr (String.mk (inferResult.data.map Char.toLower)) "high" then "high" else "low"

/-- The cache-miss path of analyzeComplexity
(src/proxy/handlers/workers-ai.ts, lines 173-196): the triage inference is
attempted; on success the verdict is computed and stored in the cache (the
put is itself wrapped in try/catch whose failure is logged and ignored, so
only the attempted value matters), on failure the conservative verdict
"high" is returned.  Result: (verdict, inference calls made, value the put
attempts to store). -/
def analyzeComplexityMiss (inferResult : Except Unit String) :
    String × Nat × Option String :=
  match inferResult with
  | .ok s => (triageVerdict s, 1, some (triageVerdict s))
  | .error _ => ("high", 1, none)

/-- Embedding of analyzeComplexity (src/proxy/handlers/workers-ai.ts,
lines 143-197) with the two external effects made explicit: cacheGet is
the outcome of `env.SETTINGS_KV.get(cacheKey)` (.error = the lookup threw,
which the source catches and logs, falling through to the miss path) and
inferResult is the outcome of the triage generateText call.  A cached
value other than "low"/"high" also falls through to the miss path. -/
def analyzeComplexityCore (cacheGet : Except Unit (Option String))
    (inferResult : Except Unit String) : String × Nat × Option String :=
  match cacheGet with
  | .ok (some v) =>
    if v = "low" ∨ v = "high" then (v, 0, none)
    else analyzeComplexityMiss inferResult
  | .ok none => analyzeComplexityMiss inferResult
  | .error _ => analyzeComplexityMiss inferResult

/-- The prompt joined from message contents by analyzeComplexity
(src/proxy/handlers/workers-ai.ts, line 144):
`messages.map(m => m.content).join('\n')`; a null content renders as the
empty string under JS Array.prototype.join. -/
def triagePromptOf (contents : List (Option String)) : String :=
  String.intercalate "\n" (contents.map (fun c => c.getD ""))

/-- One full run of analyzeComplexity against an in-memory key-value
store, for the fault-free executions claim C8 is about: KV get/put succeed
and the triage inference succeeds returning inferResult.  hash stands for
the SHA-256 hex digest (hashString, lines 132-138), an arbitrary fixed
function of the prompt; the cache is an association list where put
prepends and get takes the first match (KV overwrite semantics).  Returns
(verdict, updated cache, inference calls made). -/
def analyzeComplexityRun (hash : String → String) (contents : List (Option String))
    (inferResult : String) (cache : List (String × String)) :
    String × List (String × String) × Nat :=
  let key := "complexity:" ++ hash (triagePromptOf contents)
  let res := analyzeComplexityCore (.ok (cache.lookup key)) (.ok inferResult)
  (res.1,
   match res.2.2 with
   | some v => (key, v) :: cache
   | none => cache,
   res.2.1)

/-- A tool declaration as carried in ChatCompletionRequest.tools
(src/types.ts, lines 73-84); type is always the literal "function". -/
structure ToolFunctionDef where
  name : String
  description : Option String
deriving DecidableEq, Repr

/-- An entry of the tools array of a request. -/
structure ToolDef where
  function : ToolFunctionDef
deriving DecidableEq, Repr

/-- Which sub-handler of the Workers-AI adapter serves a request, and with
which concrete model; textStream is the only streaming outcome. -/
inductive WorkersAiOutcome where
  | toolResponse (m : ModelCapabilities)
  | jsonResponse (m : ModelCapabilities)
  | textResponse (m : ModelCapabilities)
  | textStream (m : ModelCapabilities)
deriving DecidableEq, Repr

/-- Steps 1 and 2 of handleRequest (src/proxy/handlers/workers-ai.ts,
lines 210-242): model selection.  jsonFormat models
`request.response_format?.type === 'json_object'`; triage is the verdict
analyzeComplexity returns (consulted only on the generic path with no
tools and no JSON mode).  .error carries the thrown message; the inner
Option is the value of selectedModel (`none` = the JS undefined a
findModelForFeatures call on an empty registry would yield). -/
def workersAiSelect (model : String) (tools : List ToolDef) (jsonFormat : Bool)
    (triage : String) : Except String (Option ModelCapabilities) :=
  if startsWithStr "@cf/" model then
    match getModelCapabilities model with
    | none => .error ("Unknown Workers AI model: " ++ model)
    | some m => .ok (some m)
  else if !tools.isEmpty then
    .ok (findModelForFeatures { tools := true, json := false, complexity := some .powerful })
  else if jsonFormat then
    .ok (findModelForFeatures { tools := false, json := true, complexity := none })
  else if triage = "high" then
    .ok (findModelForFeatures { tools := false, json := false, complexity := some .powerful })
  else
    .ok (findModelForFeatures { tools := false, json := false, complexity := some .fast })

/-- Step 3 of handleRequest (src/proxy/handlers/workers-ai.ts,
lines 244-256): execution with the selected model through the guards of
handleToolRequest (lines 267-269), handleJSONRequest (lines 314-316) and
handleTextRequest (lines 450-454).  An undefined selected model would
fault on the `selectedModel.name` access at line 244, rendered as a
TypeError. -/
def workersAiHandle (model : String) (tools : List ToolDef) (jsonFormat : Bool)
    (triage : String) (stream : Bool) : Except String WorkersAiOutcome :=
  match workersAiSelect model tools jsonFormat triage with
  | .error e => .error e
  | .ok none => .error "TypeError: selected model is undefined"
  | .ok (some m) =>
    if !tools.isEmpty then
      if m.supportsTools then .ok (.toolResponse m)
      else .error ("Model " ++ m.id ++ " does not support tool calling")
    else if jsonFormat then
      if m.supportsJSON then .ok (.jsonResponse m)
      else .error ("Model " ++ m.id ++ " does not support JSON output")
    else if stream then
      if m.supportsStreaming then .ok (.textStream m)
      else .error ("Model " ++ m.id ++ " does not support streaming. Please use stream: false.")
    else .ok (.textResponse m)

/-- Result of JSON.parse on the regex match of extractToolCalls
(src/proxy/handlers/workers-ai.ts, line 546), with the tool/arguments
fields collapsed to their truthiness: some v means the field is present
and truthy (for tool, the tool name used; for arguments, the
JSON.stringify re-serialisation used), none means absent or falsy. -/
structure ParsedToolCall where
  tool : Option String
  arguments : Option String
deriving DecidableEq, Repr

/-- The characters the regex class accepting everything but braces
matches. -/
def nonBrace (c : Char) : Bool :=
  c ≠ '\x7b' && c ≠ '\x7d'

/-- The quoted key the tool-call regex requires between the braces. -/
def toolKeyChars : List Char :=
  ['"', 't', 'o', 'o', 'l', '"']

/-- Leftmost match of the tool-call regex of extractToolCalls
(src/proxy/handlers/workers-ai.ts, line 543): an opening brace, a run of
non-brace characters containing the quoted key tool, and a closing brace.
A position with an opening brace matches exactly when the next brace
character to its right is a closing brace and the segment between them
contains the quoted key; otherwise the scan resumes one character to the
right, as the regex engine does. -/
def toolScan : List Char → Option (List Char)
  | [] => none
  | c :: rest =>
    if c = '\x7b' then
      let seg := rest.takeWhile nonBrace
      match rest.dropWhile nonBrace with
      | '\x7d' :: _ =>
        if containsSeg toolKeyChars seg then some ('\x7b' :: (seg ++ ['\x7d']))
        else toolScan rest
      | _ => toolScan rest
    else toolScan rest

/-- The synthetic tool call built by extractToolCalls
(src/proxy/handlers/workers-ai.ts, lines 548-557); type is always the
literal "function". -/
structure SyntheticToolCall where
  id : String
  name : String
  arguments : String
deriving DecidableEq, Repr

/-- Embedding of extractToolCalls (src/proxy/handlers/workers-ai.ts,
lines 540-564).  parse models JSON.parse on the matched substring (none =
the parse threw; the source catches and falls through to no tool call);
uuid is the crypto.randomUUID() value used for the fresh call id. -/
def extractToolCalls (parse : List Char → Option ParsedToolCall) (uuid : String)
    (text : List Char) : List SyntheticToolCall :=
  match toolScan text with
  | none => []
  | some m =>
    match parse m with
    | none => []
    | some p =>
      match p.tool, p.arguments with
      | some toolName, some args =>
        [{ id := "call_" ++ uuid, name := toolName, arguments := args }]
      | _, _ => []

/-- The single choice of the ChatCompletionResponse built by
handleToolRequest (src/proxy/handlers/workers-ai.ts, lines 282-303):
content, tool_calls (empty list models the undefined field) and
finish_reason as functions of the extracted tool calls. -/
structure ToolChoiceView where
  content : Option (List Char)
  tool_calls : List SyntheticToolCall
  finish_reason : String
deriving DecidableEq, Repr

/-- The response mapping of handleToolRequest
(src/proxy/handlers/workers-ai.ts, lines 280-303) applied to the raw
generation text. -/
def handleToolChoice (parse : List Char → Option ParsedToolCall) (uuid : String)
    (result : List Char) : ToolChoiceView :=
  let toolCalls := extractToolCalls parse uuid result
  { content := if toolCalls.length > 0 then none else some result,
    tool_calls := toolCalls,
    finish_reason := if toolCalls.length > 0 then "tool_calls" else "stop" }

/-- First index of a character (JS String.prototype.indexOf; -1 rendered
as none). -/
def idxOf? (c : Char) : List Char → Option Nat
  | [] => none
  | a :: rest => if a = c then some 0 else (idxOf? c rest).map (· + 1)

/-- Last index of a character (JS String.prototype.lastIndexOf; -1
rendered as none). -/
def lastIdxOf? (c : Char) : List Char → Option Nat
  | [] => none
  | a :: rest =>
    match lastIdxOf? c rest with
    | some i => some (i + 1)
    | none => if a = c then some 0 else none

/-- The delimiter selection and slice of cleanJSON
(src/proxy/handlers/workers-ai.ts, lines 572-590): the first of the two
opening delimiters decides whether the last closing brace or the last
closing bracket ends the slice; the substring is produced only when
start is at least 0 and end exceeds start. -/
def cleanJSONSlice (text : List Char) : Option (List Char) :=
  let se : Option (Nat × Nat) :=
    match idxOf? '\x7b' text, idxOf? '[' text with
    | some b, none => some (b, (lastIdxOf? '\x7d' text).elim 0 (· + 1))
    | some b, some k =>
      if b < k then some (b, (lastIdxOf? '\x7d' text).elim 0 (· + 1))
      else some (k, (lastIdxOf? ']' text).elim 0 (· + 1))
    | none, some k => some (k, (lastIdxOf? ']' text).elim 0 (· + 1))
    | none, none => none
  match se with
  | some (s, e) => if s < e then some ((text.drop s).take (e - s)) else none
  | none => none

/-- Embedding of cleanJSON (src/proxy/handlers/workers-ai.ts,
lines 570-601).  validJSON models success of the JSON.parse validation on
the extracted slice (the source only checks parseability and discards the
parsed value); when no slice exists or it fails to parse, the original
text is returned unchanged. -/
def cleanJSON (validJSON : List Char → Bool) (text : List Char) : List Char :=
  match cleanJSONSlice text with
  | some ex => if validJSON ex then ex else text
  | none => text

/-- Token usage triple of a ChatCompletionResponse (src/types.ts,
lines 100-106). -/
structure Usage where
  prompt_tokens : Nat
  completion_tokens : Nat
  total_tokens : Nat
deriving DecidableEq, Repr

/-- Embedding of estimateTokens (src/proxy/handlers/workers-ai.ts,
lines 606-609): the ceiling of length / 4, written in natural-number
arithmetic. -/
def estimateTokens (text : String) : Nat :=
  (text.length + 3) / 4

/-- Usage of every non-streaming Workers-AI response (handleTextRequest
lines 477-481, handleToolRequest lines 298-302, handleJSONRequest
lines 343-347): both counts estimated from character lengths. -/
def workersAiUsage (prompt result : String) : Usage :=
  { prompt_tokens := estimateTokens prompt,
    completion_tokens := estimateTokens result,
    total_tokens := estimateTokens prompt + estimateTokens result }

/-- Usage of a non-streaming ollama response (src/proxy/handlers/ollama.ts,
lines 353-357): the counts reported by the upstream, with absent counts
defaulting to 0. -/
def ollamaUsage (prompt_eval_count eval_count : Option Nat) : Usage :=
  { prompt_tokens := prompt_eval_count.getD 0,
    completion_tokens := eval_count.getD 0,
    total_tokens := prompt_eval_count.getD 0 + eval_count.getD 0 }

/-- Usage of non-streaming OpenAI and Gemini responses
(src/proxy/handlers/openai.ts and gemini.ts): the Vercel SDK native usage
counts are passed through verbatim. -/
def vercelUsage (promptTokens completionTokens totalTokens : Nat) : Usage :=
  { prompt_tokens := promptTokens,
    completion_tokens := completionTokens,
    total_tokens := totalTokens }

/-- Usage of a non-streaming Anthropic response
(src/proxy/handlers/anthropic.ts): native input/output token counts passed
through, total their sum. -/
def anthropicUsage (input_tokens output_tokens : Nat) : Usage :=
  { prompt_tokens := input_tokens,
    completion_tokens := output_tokens,
    total_tokens := input_tokens + output_tokens }

/-- One item written to the output SSE stream: a chat.completion.chunk
with its delta content and finish_reason (ids, timestamps and model names
abstracted), or the literal [DONE] sentinel line. -/
inductive SSEItem where
  | chunk (delta : Option String) (finish : Option String)
  | doneSentinel
deriving DecidableEq, Repr

/-- Final state of the output ReadableStream: closed cleanly, errored via
controller.error, or left open because the producer returned without
closing. -/
inductive StreamClosure where
  | closed
  | errored
  | leftOpen
deriving DecidableEq, Repr

/-- Events produced by the Vercel-SDK based stream converters of the
OpenAI and Gemini handlers (createSSEStream in src/proxy/handlers/openai.ts,
src/proxy/handlers/gemini.ts and the shared proxy utils): one chunk per
SDK text delta, then on iterator exhaustion the empty-delta stop chunk
and the [DONE] sentinel.  deltas are the text deltas delivered before the
stream ends; ok = false means iteration raised after them (caught by the
source, which then calls controller.error without emitting the terminal
pair). -/
def createSSEStreamEvents : List String → Bool → List SSEItem × StreamClosure
  | [], true => ([.chunk none (some "stop"), .doneSentinel], .closed)
  | [], false => ([], .errored)
  | d :: rest, ok =>
    let r := createSSEStreamEvents rest ok
    (.chunk (some d) none :: r.1, r.2)

/-- A decoded Workers-AI native stream frame after the source's JSON.parse
attempt (createStreamingResponse, src/proxy/handlers/workers-ai.ts,
lines 381-388): a parsed JSON object with its optional response/text
string fields, or the raw text when parsing failed. -/
inductive WAFrame where
  | parsedFrame (response : Option String) (text : Option String)
  | rawFrame (s : String)
deriving DecidableEq, Repr

/-- JS disjunction on an optional string field: absent and empty are both
falsy. -/
def orFalsy (o : Option String) (d : String) : String :=
  match o with
  | some s => if s = "" then d else s
  | none => d

/-- The chunkText extraction of createStreamingResponse
(src/proxy/handlers/workers-ai.ts, lines 381-388). -/
def waChunkText : WAFrame → String
  | .parsedFrame r t => orFalsy r (orFalsy t "")
  | .rawFrame s => s

/-- Events of the Workers-AI streaming normalizer
(createStreamingResponse, src/proxy/handlers/workers-ai.ts,
lines 354-437): one chunk per frame with non-empty extracted text, and on
reader exhaustion the terminal empty-delta stop chunk plus [DONE];
ok = false models a read error after the given frames (caught,
controller.error, no terminal pair). -/
def workersAiStreamEvents : List WAFrame → Bool → List SSEItem × StreamClosure
  | [], true => ([.chunk none (some "stop"), .doneSentinel], .closed)
  | [], false => ([], .errored)
  | f :: rest, ok =>
    let r := workersAiStreamEvents rest ok
    (if waChunkText f ≠ "" then .chunk (some (waChunkText f)) none :: r.1 else r.1, r.2)

/-- An Anthropic SDK stream event as consumed by the handler
(src/proxy/handlers/anthropic.ts): a content_block_delta text delta, the
message_stop event, or any other event type (ignored by both branches). -/
inductive AnthropicEvent where
  | textDelta (s : String)
  | messageStop
  | otherEvent
deriving DecidableEq, Repr

/-- Events of the Anthropic streaming normalizer
(src/proxy/handlers/anthropic.ts): one chunk per text delta; on
message_stop the terminal pair is emitted and the controller closed (any
later events would fault against the closed controller, whose error call
is then a no-op, so they contribute nothing); iteration exhausted without
message_stop leaves the controller open; ok = false models the iteration
raising after the given events. -/
def anthropicStreamEvents : List AnthropicEvent → Bool → List SSEItem × StreamClosure
  | [], true => ([], .leftOpen)
  | [], false => ([], .errored)
  | .textDelta s :: rest, ok =>
    let r := anthropicStreamEvents rest ok
    (.chunk (some s) none :: r.1, r.2)
  | .messageStop :: _, _ => ([.chunk none (some "stop"), .doneSentinel], .closed)
  | .otherEvent :: rest, ok => anthropicStreamEvents rest ok

/-- A parsed line of the Ollama NDJSON stream
(src/proxy/handlers/ollama.ts): content is the optional message content
with absent rendered as the empty string (both are falsy in the emission
test), done the completion flag.  Blank or unparsable lines are skipped by
the source and modelled as none. -/
structure OllamaChunkLine where
  content : String
  done : Bool
deriving DecidableEq, Repr

/-- Events of the ollama streaming normalizer
(src/proxy/handlers/ollama.ts, lines 252-314), at line granularity (the
byte-buffer NDJSON splitting that yields the lines is abstracted).  A
content-bearing line emits one chunk whose finish_reason is "stop" exactly
when that line carries the done flag; a done line then emits [DONE] and
closes, ignoring the remaining input; exhaustion without a done line
closes the stream with no sentinel; ok = false models a read error
(controller.error). -/
def ollamaStreamEvents : List (Option OllamaChunkLine) → Bool → List SSEItem × StreamClosure
  | [], true => ([], .closed)
  | [], false => ([], .errored)
  | none :: rest, ok => ollamaStreamEvents rest ok
  | some line :: rest, ok =>
    let emitted := if line.content ≠ "" then
        [SSEItem.chunk (some line.content) (if line.done then some "stop" else none)]
      else []
    if line.done then (emitted ++ [.doneSentinel], .closed)
    else
      let r := ollamaStreamEvents rest ok
      (emitted ++ r.1, r.2)

/-- The terminal pattern of claim C3: the event list ends with an
empty-delta stop chunk immediately followed by the [DONE] sentinel. -/
def endsWithTerminalPair (evs : List SSEItem) : Bool :=
  match evs.reverse with
  | .doneSentinel :: .chunk none (some "stop") :: _ => true
  | _ => false

/-- Recognises a chunk carrying finish_reason "stop". -/
def isStopChunk : SSEItem → Bool
  | .chunk _ (some r) => r == "stop"
  | _ => false

/-! ## Helper lemmas -/

theorem head?_isSome_of_ne_nil {α : Type} {l : List α} (h : l ≠ []) :
    l.head?.isSome = true := by
  cases l with
  | nil => exact absurd rfl h
  | cons a t => rfl

theorem natCeil_div_four (n : ℕ) : ⌈(n : ℚ) / 4⌉₊ = (n + 3) / 4 := by
  apply le_antisymm
  · rw [Nat.ceil_le, div_le_iff₀ (by norm_num : (0 : ℚ) < 4)]
    have h : n ≤ (n + 3) / 4 * 4 := by omega
    exact_mod_cast h
  · have h := Nat.le_ceil ((n : ℚ) / 4)
    rw [div_le_iff₀ (by norm_num : (0 : ℚ) < 4)] at h
    have h2 : n ≤ ⌈(n : ℚ) / 4⌉₊ * 4 := by exact_mod_cast h
    omega

/-! ## C1 -/

/-- C1: routeRequest dispatches on literal prefixes of request.model in
the fixed priority order gpt- → OpenAI, claude- → Anthropic,
gemini- → Gemini, @cf/ or the exact string workers-ai → Workers-AI, and
rejects everything else as Unsupported model.  Contrary to the claim
there is no ollama branch: a model carrying the ollama/ prefix is rejected as
unsupported even though the repository documents the route and ships the
prefix-stripping ollama handler (whose rewrite the last conjunct
records). -/
theorem C1_route_prefix_dispatch :
    (∀ m : String, startsWithStr "gpt-" m = true → routeModel m = RouteTarget.openai) ∧
    (∀ m : String, startsWithStr "gpt-" m = false → startsWithStr "claude-" m = true →
      routeModel m = RouteTarget.anthropic) ∧
    (∀ m : String, startsWithStr "gpt-" m = false → startsWithStr "claude-" m = false →
      startsWithStr "gemini-" m = true → routeModel m = RouteTarget.gemini) ∧
    (∀ m : String, startsWithStr "gpt-" m = false → startsWithStr "claude-" m = false →
      startsWithStr "gemini-" m = false →
      (startsWithStr "@cf/" m = true ∨ m = "workers-ai") →
      routeModel m = RouteTarget.workersAI) ∧
    (∀ m : String, startsWithStr "gpt-" m = false → startsWithStr "claude-" m = false →
      startsWithStr "gemini-" m = false → startsWithStr "@cf/" m = false →
      m ≠ "workers-ai" →
      routeModel m = RouteTarget.unsupported ("Unsupported model: " ++ m)) ∧
    routeModel "ollama/llama2" = RouteTarget.unsupported "Unsupported model: ollama/llama2" ∧
    ollamaStripModel "ollama/llama2" = "llama2" := by
  refine ⟨?_, ?_, ?_, ?_, ?_, by decide, by decide⟩
  · intro m h1
    simp [routeModel, h1]
  · intro m h1 h2
    simp [routeModel, h1, h2]
  · intro m h1 h2 h3
    simp [routeModel, h1, h2, h3]
  · intro m h1 h2 h3 h4
    rcases h4 with h4 | h4
    · simp [routeModel, h1, h2, h3, h4]
    · subst h4
      simp [routeModel, h1, h2, h3]
  · intro m h1 h2 h3 h4 h5
    have h5' : (m == "workers-ai") = false := beq_eq_false_iff_ne.mpr h5
    simp [routeModel, h1, h2, h3, h4, h5']

/-- Witness for C1 at concrete model strings. -/
theorem C1_route_prefix_dispatch_witness :
    routeModel "gpt-4" = RouteTarget.openai ∧
    routeModel "claude-3-opus" = RouteTarget.anthropic ∧
    routeModel "gemini-pro" = RouteTarget.gemini ∧
    routeModel "workers-ai" = RouteTarget.workersAI ∧
    routeModel "mystery-model" = RouteTarget.unsupported "Unsupported model: mystery-model" :=
  ⟨C1_route_prefix_dispatch.1 "gpt-4" (by decide),
   C1_route_prefix_dispatch.2.1 "claude-3-opus" (by decide) (by decide),
   C1_route_prefix_dispatch.2.2.1 "gemini-pro" (by decide) (by decide) (by decide),
   C1_route_prefix_dispatch.2.2.2.1 "workers-ai" (by decide) (by decide) (by decide)
     (Or.inr rfl),
   C1_route_prefix_dispatch.2.2.2.2.1 "mystery-model" (by decide) (by decide) (by decide)
     (by decide) (by decide)⟩

/-! ## C2 -/

theorem meetsRelaxed_of_meetsExact {req : FeatureRequirements} {m : ModelCapabilities}
    (h : meetsExact req m = true) : meetsRelaxed req m = true := by
  unfold meetsExact at h
  unfold meetsRelaxed
  simp only [Bool.and_eq_true] at h ⊢
  exact ⟨h.1.1, h.1.2⟩

theorem insertionSort_ne_nil {l : List ModelCapabilities} (h : l ≠ []) :
    List.insertionSort moreCapable l ≠ [] := by
  intro hc
  apply h
  have hlen := (List.perm_insertionSort moreCapable l).length_eq
  rw [hc] at hlen
  exact List.length_eq_zero.mp hlen.symm

theorem findModelForFeaturesIn_isSome (registry : List ModelCapabilities)
    (req : FeatureRequirements) (hne : registry ≠ []) :
    (findModelForFeaturesIn registry req).isSome = true := by
  simp only [findModelForFeaturesIn]
  generalize (if (List.filter (meetsExact req) registry).isEmpty = true
      then List.filter (meetsRelaxed req) registry
      else List.filter (meetsExact req) registry) = cands
  by_cases hc : cands.isEmpty = true
  · simp only [if_pos hc]
    cases h3 : registry.find? (fun m => m.complexity == Complexity.powerful) with
    | some m => simp [h3]
    | none =>
      simp only [h3]
      exact head?_isSome_of_ne_nil hne
  · have hcne : cands ≠ [] := fun hnil => hc (by simp [hnil])
    simp only [if_neg hc]
    by_cases ht : (req.tools || req.json) = true
    · simp only [if_pos ht]
      exact head?_isSome_of_ne_nil (insertionSort_ne_nil hcne)
    · simp only [if_neg ht]
      exact head?_isSome_of_ne_nil hcne

theorem findModelForFeaturesIn_tools_relaxes (registry : List ModelCapabilities)
    (hex : ∃ m ∈ registry, m.supportsTools = true)
    (hnone : ∀ m ∈ registry, m.supportsTools = true → m.complexity ≠ Complexity.powerful) :
    ∃ r, findModelForFeaturesIn registry
        { tools := true, json := false, complexity := some .powerful } = some r ∧
      r.supportsTools = true ∧ r.complexity ≠ Complexity.powerful := by
  obtain ⟨w, hwmem, hwtools⟩ := hex
  have hexact : registry.filter
      (meetsExact { tools := true, json := false, complexity := some .powerful }) = [] := by
    rw [List.filter_eq_nil_iff]
    intro a ha hpa
    unfold meetsExact at hpa
    simp only [Bool.and_eq_true, Bool.not_true, Bool.or_eq_true, beq_iff_eq] at hpa
    rcases hpa with ⟨⟨htl, _⟩, hcx⟩
    have hat : a.supportsTools = true := by
      rcases htl with h | h
      · simp at h
      · exact h
    exact hnone a ha hat hcx
  have hrelmem : w ∈ registry.filter
      (meetsRelaxed { tools := true, json := false, complexity := some .powerful }) := by
    rw [List.mem_filter]
    refine ⟨hwmem, ?_⟩
    unfold meetsRelaxed
    simp [hwtools]
  have hrelne : registry.filter
      (meetsRelaxed { tools := true, json := false, complexity := some .powerful }) ≠ [] :=
    List.ne_nil_of_mem hrelmem
  have hrelE : (registry.filter
      (meetsRelaxed { tools := true, json := false, complexity := some .powerful })).isEmpty
        = false := by
    simpa [List.isEmpty_iff] using hrelne
  simp only [findModelForFeaturesIn, hexact, List.isEmpty_nil, if_pos, hrelE]
  simp only [Bool.false_eq_true, if_false]
  obtain ⟨r, hr⟩ := Option.isSome_iff_exists.mp
    (head?_isSome_of_ne_nil (insertionSort_ne_nil hrelne))
  have hrmem : r ∈ registry.filter
      (meetsRelaxed { tools := true, json := false, complexity := some .powerful }) :=
    (List.perm_insertionSort moreCapable _).mem_iff.mp
      (List.mem_of_mem_head? (by simp [hr]))
  rw [List.mem_filter] at hrmem
  have hrt : r.supportsTools = true := by
    have hm := hrmem.2
    unfold meetsRelaxed at hm
    simp only [Bool.and_eq_true, Bool.or_eq_true] at hm
    rcases hm.1 with h | h
    · simp at h
    · exact h
  exact ⟨r, by simpa using hr, hrt, hnone r hrmem.1 hrt⟩

theorem findModelForFeaturesIn_fallback (registry : List ModelCapabilities)
    (req : FeatureRequirements) (hne : registry ≠ [])
    (hrel : registry.filter (meetsRelaxed req) = []) :
    ∃ m, findModelForFeaturesIn registry req = some m ∧
      ((m ∈ registry ∧ m.complexity = Complexity.powerful) ∨
        ((∀ x ∈ registry, x.complexity ≠ Complexity.powerful) ∧
          registry.head? = some m)) := by
  have hexact : registry.filter (meetsExact req) = [] := by
    rw [List.filter_eq_nil_iff]
    intro a ha hpa
    have hr := meetsRelaxed_of_meetsExact hpa
    rw [List.filter_eq_nil_iff] at hrel
    exact hrel a ha hr
  simp only [findModelForFeaturesIn, hexact, hrel, List.isEmpty_nil, if_pos]
  cases h3 : registry.find? (fun m => m.complexity == Complexity.powerful) with
  | some m =>
    refine ⟨m, rfl, Or.inl ⟨List.mem_of_find?_eq_some h3, ?_⟩⟩
    have hp := List.find?_some h3
    simpa using hp
  | none =>
    obtain ⟨a, t, rfl⟩ := List.exists_cons_of_ne_nil hne
    refine ⟨a, rfl, Or.inr ⟨?_, rfl⟩⟩
    intro x hx
    rw [List.find?_eq_none] at h3
    have hx3 := h3 x hx
    simpa using hx3

/-- C2: the best-fit search is total on every non-empty registry (it never
throws and never yields the JS undefined); a tools-plus-powerful search
against a registry holding tool-supporting models but no powerful
tool-supporting model relaxes the complexity constraint and returns a
tool-supporting model of lower complexity; and when even the relaxed
filter is empty it falls back to the first powerful registry entry, or to
the first entry when none is powerful. -/
theorem C2_findModelForFeatures_relaxation :
    (∀ (registry : List ModelCapabilities) (req : FeatureRequirements),
      registry ≠ [] → (findModelForFeaturesIn registry req).isSome = true) ∧
    (∀ registry : List ModelCapabilities,
      (∃ m ∈ registry, m.supportsTools = true) →
      (∀ m ∈ registry, m.supportsTools = true → m.complexity ≠ Complexity.powerful) →
      ∃ r, findModelForFeaturesIn registry
          { tools := true, json := false, complexity := some .powerful } = some r ∧
        r.supportsTools = true ∧ r.complexity ≠ Complexity.powerful) ∧
    (∀ (registry : List ModelCapabilities) (req : FeatureRequirements),
      registry ≠ [] → registry.filter (meetsRelaxed req) = [] →
      ∃ m, findModelForFeaturesIn registry req = some m ∧
        ((m ∈ registry ∧ m.complexity = Complexity.powerful) ∨
          ((∀ x ∈ registry, x.complexity ≠ Complexity.powerful) ∧
            registry.head? = some m))) :=
  ⟨findModelForFeaturesIn_isSome,
   findModelForFeaturesIn_tools_relaxes,
   findModelForFeaturesIn_fallback⟩

/-- Witness for C2 on a one-model toy registry: a fast tool-supporting
model with no JSON support. -/
theorem C2_findModelForFeatures_relaxation_witness :
    ((findModelForFeaturesIn
        [{ id := "a", name := "a", supportsTools := true, supportsJSON := false,
           supportsStreaming := true, complexity := .fast, contextWindow := 1 }]
        { tools := true, json := false, complexity := some .powerful }).isSome = true) ∧
    (∃ r, findModelForFeaturesIn
        [{ id := "a", name := "a", supportsTools := true, supportsJSON := false,
           supportsStreaming := true, complexity := .fast, contextWindow := 1 }]
        { tools := true, json := false, complexity := some .powerful } = some r ∧
      r.supportsTools = true ∧ r.complexity ≠ Complexity.powerful) ∧
    (∃ m, findModelForFeaturesIn
        [{ id := "a", name := "a", supportsTools := true, supportsJSON := false,
           supportsStreaming := true, complexity := .fast, contextWindow := 1 }]
        { tools := false, json := true, complexity := none } = some m ∧
      ((m ∈ [{ id := "a", name := "a", supportsTools := true, supportsJSON := false,
               supportsStreaming := true, complexity := .fast, contextWindow := 1 }] ∧
          m.complexity = Complexity.powerful) ∨
        ((∀ x ∈ [({ id := "a", name := "a", supportsTools := true, supportsJSON := false,
                    supportsStreaming := true, complexity := .fast,
                    contextWindow := 1 } : ModelCapabilities)],
            x.complexity ≠ Complexity.powerful) ∧
          List.head? [({ id := "a", name := "a", supportsTools := true, supportsJSON := false,
                         supportsStreaming := true, complexity := .fast,
                         contextWindow := 1 } : ModelCapabilities)] = some m))) := by
  refine ⟨C2_findModelForFeatures_relaxation.1
      [{ id := "a", name := "a", supportsTools := true, supportsJSON := false,
         supportsStreaming := true, complexity := .fast, contextWindow := 1 }]
      { tools := true, json := false, complexity := some .powerful } (by decide),
    C2_findModelForFeatures_relaxation.2.1
      [{ id := "a", name := "a", supportsTools := true, supportsJSON := false,
         supportsStreaming := true, complexity := .fast, contextWindow := 1 }]
      (by decide) (by decide),
    C2_findModelForFeatures_relaxation.2.2
      [{ id := "a", name := "a", supportsTools := true, supportsJSON := false,
         supportsStreaming := true, complexity := .fast, contextWindow := 1 }]
      { tools := false, json := true, complexity := none } (by decide) (by decide)⟩

/-! ## C3 -/

theorem endsWithTerminalPair_append (l : List SSEItem) :
    endsWithTerminalPair
      (l ++ [SSEItem.chunk none (some "stop"), SSEItem.doneSentinel]) = true := by
  simp [endsWithTerminalPair, List.reverse_append]

theorem createSSEStreamEvents_completed (deltas : List String) :
    createSSEStreamEvents deltas true =
      (deltas.map (fun d => SSEItem.chunk (some d) none) ++
        [SSEItem.chunk none (some "stop"), SSEItem.doneSentinel],
       StreamClosure.closed) := by
  induction deltas with
  | nil => rfl
  | cons d rest ih => simp [createSSEStreamEvents, ih]

theorem createSSEStreamEvents_aborted (deltas : List String) :
    createSSEStreamEvents deltas false =
      (deltas.map (fun d => SSEItem.chunk (some d) none), StreamClosure.errored) := by
  induction deltas with
  | nil => rfl
  | cons d rest ih => simp [createSSEStreamEvents, ih]

theorem workersAiStreamEvents_completed (frames : List WAFrame) :
    workersAiStreamEvents frames true =
      (frames.filterMap (fun f => if waChunkText f = "" then none
          else some (SSEItem.chunk (some (waChunkText f)) none)) ++
        [SSEItem.chunk none (some "stop"), SSEItem.doneSentinel],
       StreamClosure.closed) := by
  induction frames with
  | nil => rfl
  | cons f rest ih =>
    by_cases h : waChunkText f = ""
    · simp [workersAiStreamEvents, ih, List.filterMap_cons, h]
    · simp [workersAiStreamEvents, ih, List.filterMap_cons, h]

theorem workersAiStreamEvents_aborted (frames : List WAFrame) :
    workersAiStreamEvents frames false =
      (frames.filterMap (fun f => if waChunkText f = "" then none
          else some (SSEItem.chunk (some (waChunkText f)) none)),
       StreamClosure.errored) := by
  induction frames with
  | nil => rfl
  | cons f rest ih =>
    by_cases h : waChunkText f = ""
    · simp [workersAiStreamEvents, ih, List.filterMap_cons, h]
    · simp [workersAiStreamEvents, ih, List.filterMap_cons, h]

theorem anthropicStreamEvents_completed (pre : List AnthropicEvent) (ok : Bool)
    (h : AnthropicEvent.messageStop ∉ pre) :
    anthropicStreamEvents (pre ++ [AnthropicEvent.messageStop]) ok =
      (pre.filterMap (fun e => match e with
          | .textDelta s => some (SSEItem.chunk (some s) none)
          | _ => none) ++
        [SSEItem.chunk none (some "stop"), SSEItem.doneSentinel],
       StreamClosure.closed) := by
  induction pre with
  | nil => rfl
  | cons a rest ih =>
    have hrest : AnthropicEvent.messageStop ∉ rest :=
      fun hm => h (List.mem_cons_of_mem _ hm)
    cases a with
    | textDelta s => simp [anthropicStreamEvents, ih hrest, List.filterMap_cons]
    | messageStop => exact absurd (List.mem_cons_self _ _) h
    | otherEvent => simp [anthropicStreamEvents, ih hrest, List.filterMap_cons]

theorem anthropicStreamEvents_aborted (evs : List AnthropicEvent)
    (h : AnthropicEvent.messageStop ∉ evs) :
    anthropicStreamEvents evs false =
      (evs.filterMap (fun e => match e with
          | .textDelta s => some (SSEItem.chunk (some s) none)
          | _ => none),
       StreamClosure.errored) := by
  induction evs with
  | nil => rfl
  | cons a rest ih =>
    have hrest : AnthropicEvent.messageStop ∉ rest :=
      fun hm => h (List.mem_cons_of_mem _ hm)
    cases a with
    | textDelta s => simp [anthropicStreamEvents, ih hrest, List.filterMap_cons]
    | messageStop => exact absurd (List.mem_cons_self _ _) h
    | otherEvent => simp [anthropicStreamEvents, ih hrest, List.filterMap_cons]

theorem ollamaStreamEvents_no_empty_stop (lines : List (Option OllamaChunkLine))
    (ok : Bool) :
    SSEItem.chunk none (some "stop") ∉ (ollamaStreamEvents lines ok).1 := by
  induction lines with
  | nil => cases ok <;> simp [ollamaStreamEvents]
  | cons l rest ih =>
    cases l with
    | none => simpa [ollamaStreamEvents] using ih
    | some c =>
      by_cases hc : c.content = ""
      · by_cases hd : c.done <;> simp [ollamaStreamEvents, hc, hd, ih]
      · by_cases hd : c.done <;> simp [ollamaStreamEvents, hc, hd, ih]

theorem ollamaStreamEvents_aborted_no_sentinel (lines : List (Option OllamaChunkLine))
    (h : ∀ l ∈ lines, ∀ c, l = some c → c.done = false) :
    SSEItem.doneSentinel ∉ (ollamaStreamEvents lines false).1 ∧
    (ollamaStreamEvents lines false).2 = StreamClosure.errored := by
  induction lines with
  | nil => simp [ollamaStreamEvents]
  | cons l rest ih =>
    have hrest : ∀ l ∈ rest, ∀ c, l = some c → c.done = false :=
      fun x hx => h x (List.mem_cons_of_mem _ hx)
    cases l with
    | none => simpa [ollamaStreamEvents] using ih hrest
    | some c =>
      have hdone : c.done = false := h (some c) (List.mem_cons_self _ _) c rfl
      by_cases hc : c.content = "" <;>
        simpa [ollamaStreamEvents, hc, hdone] using ih hrest

theorem getLast?_append_some {α : Type} {l2 : List α} {a : α} (l1 : List α)
    (h : l2.getLast? = some a) : (l1 ++ l2).getLast? = some a := by
  have hne : l2 ≠ [] := by
    intro hn
    rw [hn] at h
    simp at h
  rw [List.getLast?_append_of_ne_nil _ hne]
  exact h

theorem ollamaStreamEvents_done_sentinel (pre : List (Option OllamaChunkLine))
    (c : OllamaChunkLine)
    (h : ∀ l ∈ pre, ∀ x, l = some x → x.done = false) (hc : c.done = true) :
    (ollamaStreamEvents (pre ++ [some c]) true).1.getLast? =
      some SSEItem.doneSentinel := by
  induction pre with
  | nil => simp [ollamaStreamEvents, hc, List.getLast?_concat]
  | cons l rest ih =>
    have hrest : ∀ l ∈ rest, ∀ x, l = some x → x.done = false :=
      fun x hx => h x (List.mem_cons_of_mem _ hx)
    cases l with
    | none => simpa [ollamaStreamEvents] using ih hrest
    | some x =>
      have hdone : x.done = false := h (some x) (List.mem_cons_self _ _) x rfl
      by_cases hcx : x.content = ""
      · simpa [ollamaStreamEvents, hcx, hdone] using ih hrest
      · have hgoal := getLast?_append_some [SSEItem.chunk (some x.content) none] (ih hrest)
        simpa [ollamaStreamEvents, hcx, hdone] using hgoal

/-- C3 counterexample: the Ollama streaming path violates the
terminal-pair property.  A completed ollama stream whose final upstream
frame carries both content and the done flag ends with a content-bearing
stop chunk followed by [DONE] — not an empty-delta stop chunk — and a done
frame without content yields the sentinel with no stop chunk at all. -/
theorem C3_ollama_terminal_counterexample :
    ollamaStreamEvents [some { content := "hi", done := true }] true =
      ([SSEItem.chunk (some "hi") (some "stop"), SSEItem.doneSentinel],
       StreamClosure.closed) ∧
    endsWithTerminalPair
      (ollamaStreamEvents [some { content := "hi", done := true }] true).1 = false ∧
    (ollamaStreamEvents [some { content := "", done := true }] true).1 =
      [SSEItem.doneSentinel] := by
  decide

/-- C3 amended: for the OpenAI, Gemini, Workers-AI and Anthropic streaming
paths a normally completed stream ends with exactly one stop chunk, which
has an empty delta and is immediately followed by the [DONE] sentinel, and
an upstream read error yields neither a stop chunk nor the sentinel (the
output stream is closed in an error state).  The Ollama path never emits
an empty-delta stop chunk: its stop marker rides on the final content
chunk when the done frame carries content; an aborted ollama stream emits
no sentinel, while a completed one ends with the sentinel. -/
theorem C3_terminal_sentinel_amended :
    (∀ deltas : List String,
      endsWithTerminalPair (createSSEStreamEvents deltas true).1 = true ∧
      (createSSEStreamEvents deltas true).1.countP isStopChunk = 1 ∧
      (createSSEStreamEvents deltas true).2 = StreamClosure.closed) ∧
    (∀ deltas : List String,
      (createSSEStreamEvents deltas false).1.countP isStopChunk = 0 ∧
      SSEItem.doneSentinel ∉ (createSSEStreamEvents deltas false).1 ∧
      (createSSEStreamEvents deltas false).2 = StreamClosure.errored) ∧
    (∀ frames : List WAFrame,
      endsWithTerminalPair (workersAiStreamEvents frames true).1 = true ∧
      (workersAiStreamEvents frames true).1.countP isStopChunk = 1 ∧
      (workersAiStreamEvents frames true).2 = StreamClosure.closed) ∧
    (∀ frames : List WAFrame,
      (workersAiStreamEvents frames false).1.countP isStopChunk = 0 ∧
      SSEItem.doneSentinel ∉ (workersAiStreamEvents frames false).1 ∧
      (workersAiStreamEvents frames false).2 = StreamClosure.errored) ∧
    (∀ (pre : List AnthropicEvent) (ok : Bool), AnthropicEvent.messageStop ∉ pre →
      endsWithTerminalPair
        (anthropicStreamEvents (pre ++ [AnthropicEvent.messageStop]) ok).1 = true ∧
      (anthropicStreamEvents (pre ++ [AnthropicEvent.messageStop]) ok).1.countP
        isStopChunk = 1 ∧
      (anthropicStreamEvents (pre ++ [AnthropicEvent.messageStop]) ok).2 =
        StreamClosure.closed) ∧
    (∀ evs : List AnthropicEvent, AnthropicEvent.messageStop ∉ evs →
      (anthropicStreamEvents evs false).1.countP isStopChunk = 0 ∧
      SSEItem.doneSentinel ∉ (anthropicStreamEvents evs false).1 ∧
      (anthropicStreamEvents evs false).2 = StreamClosure.errored) ∧
    (∀ (lines : List (Option OllamaChunkLine)) (ok : Bool),
      SSEItem.chunk none (some "stop") ∉ (ollamaStreamEvents lines ok).1) ∧
    (∀ lines : List (Option OllamaChunkLine),
      (∀ l ∈ lines, ∀ c, l = some c → c.done = false) →
      SSEItem.doneSentinel ∉ (ollamaStreamEvents lines false).1 ∧
      (ollamaStreamEvents lines false).2 = StreamClosure.errored) ∧
    (∀ (pre : List (Option OllamaChunkLine)) (c : OllamaChunkLine),
      (∀ l ∈ pre, ∀ x, l = some x → x.done = false) → c.done = true →
      (ollamaStreamEvents (pre ++ [some c]) true).1.getLast? =
        some SSEItem.doneSentinel) := by
  refine ⟨?_, ?_, ?_, ?_, ?_, ?_, ?_, ?_, ?_⟩
  · intro deltas
    have h1 : (deltas.map (fun d => SSEItem.chunk (some d) none)).countP isStopChunk = 0 :=
      List.countP_eq_zero.mpr (by
        intro a ha
        rw [List.mem_map] at ha
        obtain ⟨d, _, rfl⟩ := ha
        simp [isStopChunk])
    refine ⟨?_, ?_, ?_⟩
    · rw [createSSEStreamEvents_completed]
      exact endsWithTerminalPair_append _
    · simp [createSSEStreamEvents_completed, List.countP_append, List.countP_cons,
        isStopChunk, h1]
    · simp [createSSEStreamEvents_completed]
  · intro deltas
    have h1 : (deltas.map (fun d => SSEItem.chunk (some d) none)).countP isStopChunk = 0 :=
      List.countP_eq_zero.mpr (by
        intro a ha
        rw [List.mem_map] at ha
        obtain ⟨d, _, rfl⟩ := ha
        simp [isStopChunk])
    refine ⟨?_, ?_, ?_⟩
    · simp [createSSEStreamEvents_aborted, h1]
    · simp [createSSEStreamEvents_aborted, List.mem_map]
    · simp [createSSEStreamEvents_aborted]
  · intro frames
    have h1 : (frames.filterMap (fun f => if waChunkText f = "" then none
        else some (SSEItem.chunk (some (waChunkText f)) none))).countP isStopChunk = 0 :=
      List.countP_eq_zero.mpr (by
        intro a ha
        rw [List.mem_filterMap] at ha
        obtain ⟨f, _, hf⟩ := ha
        by_cases hw : waChunkText f = ""
        · simp [hw] at hf
        · rw [if_neg hw] at hf
          injection hf with hf
          subst hf
          simp [isStopChunk])
    refine ⟨?_, ?_, ?_⟩
    · rw [workersAiStreamEvents_completed]
      exact endsWithTerminalPair_append _
    · simp [workersAiStreamEvents_completed, List.countP_append, List.countP_cons,
        isStopChunk, h1]
    · simp [workersAiStreamEvents_completed]
  · intro frames
    have h1 : (frames.filterMap (fun f => if waChunkText f = "" then none
        else some (SSEItem.chunk (some (waChunkText f)) none))).countP isStopChunk = 0 :=
      List.countP_eq_zero.mpr (by
        intro a ha
        rw [List.mem_filterMap] at ha
        obtain ⟨f, _, hf⟩ := ha
        by_cases hw : waChunkText f = ""
        · simp [hw] at hf
        · rw [if_neg hw] at hf
          injection hf with hf
          subst hf
          simp [isStopChunk])
    refine ⟨?_, ?_, ?_⟩
    · simp [workersAiStreamEvents_aborted, h1]
    · rw [workersAiStreamEvents_aborted]
      intro hmem
      rw [List.mem_filterMap] at hmem
      obtain ⟨f, _, hf⟩ := hmem
      by_cases hw : waChunkText f = ""
      · simp [hw] at hf
      · rw [if_neg hw] at hf
        simp at hf
    · simp [workersAiStreamEvents_aborted]
  · intro pre ok h
    have h1 : (pre.filterMap (fun e => match e with
        | AnthropicEvent.textDelta s => some (SSEItem.chunk (some s) none)
        | _ => none)).countP isStopChunk = 0 :=
      List.countP_eq_zero.mpr (by
        intro a ha
        rw [List.mem_filterMap] at ha
        obtain ⟨e, _, hf⟩ := ha
        cases e with
        | textDelta s =>
          injection hf with hf
          subst hf
          simp [isStopChunk]
        | messageStop => simp at hf
        | otherEvent => simp at hf)
    refine ⟨?_, ?_, ?_⟩
    · rw [anthropicStreamEvents_completed pre ok h]
      exact endsWithTerminalPair_append _
    · simp [anthropicStreamEvents_completed pre ok h, List.countP_append,
        List.countP_cons, isStopChunk, h1]
    · simp [anthropicStreamEvents_completed pre ok h]
  · intro evs h
    have h1 : (evs.filterMap (fun e => match e with
        | AnthropicEvent.textDelta s => some (SSEItem.chunk (some s) none)
        | _ => none)).countP isStopChunk = 0 :=
      List.countP_eq_zero.mpr (by
        intro a ha
        rw [List.mem_filterMap] at ha
        obtain ⟨e, _, hf⟩ := ha
        cases e with
        | textDelta s =>
          injection hf with hf
          subst hf
          simp [isStopChunk]
        | messageStop => simp at hf
        | otherEvent => simp at hf)
    refine ⟨?_, ?_, ?_⟩
    · simp [anthropicStreamEvents_aborted evs h, h1]
    · rw [anthropicStreamEvents_aborted evs h]
      intro hmem
      rw [List.mem_filterMap] at hmem
      obtain ⟨e, _, hf⟩ := hmem
      cases e <;> simp at hf
    · simp [anthropicStreamEvents_aborted evs h]
  · exact ollamaStreamEvents_no_empty_stop
  · exact fun lines h => ollamaStreamEvents_aborted_no_sentinel lines h
  · exact fun pre c h hc => ollamaStreamEvents_done_sentinel pre c h hc

/-- Witness for C3 at concrete small streams. -/
theorem C3_terminal_sentinel_amended_witness :
    (endsWithTerminalPair
      (anthropicStreamEvents
        ([AnthropicEvent.textDelta "a"] ++ [AnthropicEvent.messageStop]) true).1 = true ∧
     (anthropicStreamEvents
        ([AnthropicEvent.textDelta "a"] ++ [AnthropicEvent.messageStop]) true).1.countP
        isStopChunk = 1 ∧
     (anthropicStreamEvents
        ([AnthropicEvent.textDelta "a"] ++ [AnthropicEvent.messageStop]) true).2 =
       StreamClosure.closed) ∧
    ((anthropicStreamEvents [AnthropicEvent.textDelta "a"] false).1.countP
        isStopChunk = 0 ∧
     SSEItem.doneSentinel ∉ (anthropicStreamEvents [AnthropicEvent.textDelta "a"] false).1 ∧
     (anthropicStreamEvents [AnthropicEvent.textDelta "a"] false).2 =
       StreamClosure.errored) ∧
    (SSEItem.doneSentinel ∉
        (ollamaStreamEvents [some { content := "a", done := false }] false).1 ∧
     (ollamaStreamEvents [some { content := "a", done := false }] false).2 =
       StreamClosure.errored) ∧
    (ollamaStreamEvents ([] ++ [some { content := "", done := true }]) true).1.getLast? =
      some SSEItem.doneSentinel :=
  ⟨C3_terminal_sentinel_amended.2.2.2.2.1 [AnthropicEvent.textDelta "a"] true (by decide),
   C3_terminal_sentinel_amended.2.2.2.2.2.1 [AnthropicEvent.textDelta "a"] (by decide),
   C3_terminal_sentinel_amended.2.2.2.2.2.2.2.1 [some { content := "a", done := false }]
     (by decide),
   C3_terminal_sentinel_amended.2.2.2.2.2.2.2.2 [] { content := "", done := true }
     (by decide) (by decide)⟩

/-! ## C4 -/

/-- C4: analyzeComplexity never propagates an exception: a failed cache
lookup is processed exactly like a cache miss (classification still
proceeds), a failed triage inference yields the conservative verdict
high, and every execution returns one of the two verdicts. -/
theorem C4_analyzeComplexity_never_throws :
    (∀ infer : Except Unit String,
      analyzeComplexityCore (.error ()) infer = analyzeComplexityCore (.ok none) infer) ∧
    (∀ cacheGet : Except Unit (Option String),
      (∀ v, cacheGet = .ok (some v) → v ≠ "low" ∧ v ≠ "high") →
      (analyzeComplexityCore cacheGet (.error ())).1 = "high") ∧
    (∀ (cacheGet : Except Unit (Option String)) (infer : Except Unit String),
      (analyzeComplexityCore cacheGet infer).1 = "low" ∨
      (analyzeComplexityCore cacheGet infer).1 = "high") := by
  refine ⟨?_, ?_, ?_⟩
  · intro infer
    rfl
  · intro cacheGet h
    cases cacheGet with
    | error e => rfl
    | ok o =>
      cases o with
      | none => rfl
      | some v =>
        have hv := h v rfl
        rw [show analyzeComplexityCore (Except.ok (some v)) (Except.error ()) =
            if v = "low" ∨ v = "high" then (v, 0, none)
            else analyzeComplexityMiss (Except.error ()) from rfl,
          if_neg (fun hor => hor.elim hv.1 hv.2)]
        rfl
  · intro cacheGet infer
    have hmiss : (analyzeComplexityMiss infer).1 = "low" ∨
        (analyzeComplexityMiss infer).1 = "high" := by
      cases infer with
      | error e => exact Or.inr rfl
      | ok s =>
        show triageVerdict s = "low" ∨ triageVerdict s = "high"
        unfold triageVerdict
        by_cases h : includesStr (String.mk (s.data.map Char.toLower)) "high" = true
        · rw [if_pos h]
          exact Or.inr rfl
        · rw [if_neg h]
          exact Or.inl rfl
    cases cacheGet with
    | error e => exact hmiss
    | ok o =>
      cases o with
      | none => exact hmiss
      | some v =>
        rw [show analyzeComplexityCore (Except.ok (some v)) infer =
            if v = "low" ∨ v = "high" then (v, 0, none)
            else analyzeComplexityMiss infer from rfl]
        by_cases hv : v = "low" ∨ v = "high"
        · rw [if_pos hv]
          exact hv
        · rw [if_neg hv]
          exact hmiss

/-- Witness for C4 at concrete cache and inference outcomes. -/
theorem C4_analyzeComplexity_never_throws_witness :
    analyzeComplexityCore (.error ()) (.ok "fine") =
      analyzeComplexityCore (.ok none) (.ok "fine") ∧
    (analyzeComplexityCore (.error ()) (.error ())).1 = "high" :=
  ⟨C4_analyzeComplexity_never_throws.1 (.ok "fine"),
   C4_analyzeComplexity_never_throws.2.1 (.error ()) (fun _ h => nomatch h)⟩

/-! ## C5 -/

/-- C5: the tool handler produces exactly one of two outcomes for every
raw generation text and every behaviour of the external JSON parser: a
successful regex match whose parse carries truthy tool and arguments
fields becomes exactly one synthetic tool call (fresh call_ id,
re-serialised arguments) with null content and finish_reason tool_calls;
any failure — no regex match, a parse exception, or falsy fields — returns
the raw text as assistant content with finish_reason stop.  More than one
tool call is never produced. -/
theorem C5_extractToolCalls_outcomes :
    (∀ (parse : List Char → Option ParsedToolCall) (uuid : String) (text : List Char),
      (extractToolCalls parse uuid text).length ≤ 1) ∧
    (∀ (parse : List Char → Option ParsedToolCall) (uuid : String)
      (text m : List Char) (p : ParsedToolCall) (toolName args : String),
      toolScan text = some m → parse m = some p →
      p.tool = some toolName → p.arguments = some args →
      handleToolChoice parse uuid text =
        { content := none,
          tool_calls := [{ id := "call_" ++ uuid, name := toolName, arguments := args }],
          finish_reason := "tool_calls" }) ∧
    (∀ (parse : List Char → Option ParsedToolCall) (uuid : String) (text : List Char),
      extractToolCalls parse uuid text = [] →
      handleToolChoice parse uuid text =
        { content := some text, tool_calls := [], finish_reason := "stop" }) ∧
    (∀ (parse : List Char → Option ParsedToolCall) (uuid : String) (text m : List Char),
      toolScan text = some m → parse m = none → extractToolCalls parse uuid text = []) ∧
    (∀ (parse : List Char → Option ParsedToolCall) (uuid : String) (text : List Char),
      toolScan text = none → extractToolCalls parse uuid text = []) := by
  refine ⟨?_, ?_, ?_, ?_, ?_⟩
  · intro parse uuid text
    unfold extractToolCalls
    cases hscan : toolScan text with
    | none => simp
    | some m =>
      simp only []
      cases hp : parse m with
      | none => simp
      | some p =>
        simp only [hp]
        rcases p with ⟨pt, pargs⟩
        cases pt <;> cases pargs <;> simp
  · intro parse uuid text m p toolName args hscan hparse hptool hpargs
    simp only [handleToolChoice, extractToolCalls, hscan, hparse, hptool, hpargs]
    simp
  · intro parse uuid text h
    simp only [handleToolChoice, h]
    simp
  · intro parse uuid text m hscan hparse
    simp only [extractToolCalls, hscan, hparse]
  · intro parse uuid text h
    simp only [extractToolCalls, h]

/-- Witness for C5 on concrete generation texts: one with a matching tool
object and a parser that accepts it, one with no JSON object at all. -/
theorem C5_extractToolCalls_outcomes_witness :
    handleToolChoice (fun _ => some { tool := some "lookup", arguments := some "\x7b\x7d" })
        "u" "\x7b\"tool\":1\x7d".data =
      { content := none,
        tool_calls := [{ id := "call_" ++ "u", name := "lookup", arguments := "\x7b\x7d" }],
        finish_reason := "tool_calls" } ∧
    extractToolCalls (fun _ => none) "u" "no json here".data = [] :=
  ⟨C5_extractToolCalls_outcomes.2.1
      (fun _ => some { tool := some "lookup", arguments := some "\x7b\x7d" }) "u"
      "\x7b\"tool\":1\x7d".data "\x7b\"tool\":1\x7d".data
      { tool := some "lookup", arguments := some "\x7b\x7d" } "lookup" "\x7b\x7d"
      (by decide) rfl rfl rfl,
   C5_extractToolCalls_outcomes.2.2.2.2 (fun _ => none) "u" "no json here".data (by decide)⟩

/-! ## C6 -/

/-- C6 counterexample: a tool-bearing request naming
@cf/meta/llama-3-8b-instruct explicitly is rejected with a
does-not-support-tool-calling error — no tools-capable model is chosen in
its place, contrary to the claim; the second conjunct records that this
registered model indeed has supportsTools = false. -/
theorem C6_explicit_model_tools_counterexample :
    workersAiHandle "@cf/meta/llama-3-8b-instruct"
        [{ function := { name := "lookup", description := some "x" } }] false "low" false =
      .error "Model @cf/meta/llama-3-8b-instruct does not support tool calling" ∧
    (getModelCapabilities "@cf/meta/llama-3-8b-instruct").map
        (fun m => m.supportsTools) = some false :=
  ⟨rfl, rfl⟩

/-- C6 amended: a tool-bearing request naming @cf/meta/llama-3-8b-instruct
explicitly is never served by that model — the handler throws that the
model does not support tool calling — and a tools-capable model is chosen
instead only when the request enters through the generic workers-ai model
string, in which case the selected model supports tools. -/
theorem C6_explicit_model_tools_amended :
    (∀ tools : List ToolDef, tools ≠ [] →
      ∀ (jsonFormat : Bool) (triage : String) (stream : Bool),
      workersAiHandle "@cf/meta/llama-3-8b-instruct" tools jsonFormat triage stream =
        .error "Model @cf/meta/llama-3-8b-instruct does not support tool calling") ∧
    (∀ tools : List ToolDef, tools ≠ [] →
      ∀ (jsonFormat : Bool) (triage : String) (stream : Bool),
      ∃ m, workersAiHandle "workers-ai" tools jsonFormat triage stream =
          .ok (.toolResponse m) ∧ m.supportsTools = true) := by
  constructor
  · intro tools htools jsonFormat triage stream
    cases tools with
    | nil => exact absurd rfl htools
    | cons a rest => rfl
  · intro tools htools jsonFormat triage stream
    cases tools with
    | nil => exact absurd rfl htools
    | cons a rest => exact ⟨_, rfl, rfl⟩

/-- Witness for C6 with a concrete one-element tools array. -/
theorem C6_explicit_model_tools_amended_witness :
    workersAiHandle "@cf/meta/llama-3-8b-instruct"
        [{ function := { name := "t", description := none } }] false "low" true =
      .error "Model @cf/meta/llama-3-8b-instruct does not support tool calling" ∧
    (∃ m, workersAiHandle "workers-ai"
        [{ function := { name := "t", description := none } }] false "low" true =
        .ok (.toolResponse m) ∧ m.supportsTools = true) :=
  ⟨C6_explicit_model_tools_amended.1 [{ function := { name := "t", description := none } }]
      (by decide) false "low" true,
   C6_explicit_model_tools_amended.2 [{ function := { name := "t", description := none } }]
      (by decide) false "low" true⟩

/-! ## C7 -/

/-- C7 counterexample: an ollama response reporting no usage counts yields
zero token counts, not the approximation by a quarter of the character
length — for the completion text hello the claim predicts 2 completion
tokens, the code reports 0. -/
theorem C7_ollama_usage_counterexample :
    ollamaUsage none none =
      { prompt_tokens := 0, completion_tokens := 0, total_tokens := 0 } ∧
    estimateTokens "hello" = 2 ∧
    (ollamaUsage none none).completion_tokens ≠ estimateTokens "hello" := by
  refine ⟨rfl, rfl, ?_⟩
  decide

/-- C7 amended: non-streaming Workers-AI responses estimate both counts as
the ceiling of character length over four, with the total their sum;
ollama passes its reported counts through and defaults missing counts to
zero (not the ceiling approximation); OpenAI and Gemini pass the SDK
usage triple through verbatim and Anthropic passes input/output counts
through with the total their sum. -/
theorem C7_usage_accounting :
    (∀ prompt result : String,
      workersAiUsage prompt result =
        { prompt_tokens := ⌈(prompt.length : ℚ) / 4⌉₊,
          completion_tokens := ⌈(result.length : ℚ) / 4⌉₊,
          total_tokens := ⌈(prompt.length : ℚ) / 4⌉₊ + ⌈(result.length : ℚ) / 4⌉₊ }) ∧
    (∀ p e : Nat, ollamaUsage (some p) (some e) =
      { prompt_tokens := p, completion_tokens := e, total_tokens := p + e }) ∧
    (ollamaUsage none none =
      { prompt_tokens := 0, completion_tokens := 0, total_tokens := 0 }) ∧
    (∀ a b c : Nat, vercelUsage a b c =
      { prompt_tokens := a, completion_tokens := b, total_tokens := c }) ∧
    (∀ i o : Nat, anthropicUsage i o =
      { prompt_tokens := i, completion_tokens := o, total_tokens := i + o }) := by
  refine ⟨?_, fun p e => rfl, rfl, fun a b c => rfl, fun i o => rfl⟩
  intro prompt result
  unfold workersAiUsage estimateTokens
  rw [natCeil_div_four, natCeil_div_four]

/-! ## C8 -/

theorem triageVerdict_cases (s : String) :
    triageVerdict s = "low" ∨ triageVerdict s = "high" := by
  unfold triageVerdict
  by_cases h : includesStr (String.mk (s.data.map Char.toLower)) "high" = true
  · rw [if_pos h]
    exact Or.inr rfl
  · rw [if_neg h]
    exact Or.inl rfl

theorem analyzeComplexityRun_hit (hash : String → String)
    (contents : List (Option String)) (inf v : String)
    (cache : List (String × String))
    (hl : cache.lookup ("complexity:" ++ hash (triagePromptOf contents)) = some v)
    (hv : v = "low" ∨ v = "high") :
    analyzeComplexityRun hash contents inf cache = (v, cache, 0) := by
  simp only [analyzeComplexityRun, hl]
  rw [show analyzeComplexityCore (Except.ok (some v)) (Except.ok inf) =
      if v = "low" ∨ v = "high" then (v, 0, none)
      else analyzeComplexityMiss (Except.ok inf) from rfl,
    if_pos hv]

theorem analyzeComplexityRun_miss_none (hash : String → String)
    (contents : List (Option String)) (inf : String)
    (cache : List (String × String))
    (hl : cache.lookup ("complexity:" ++ hash (triagePromptOf contents)) = none) :
    analyzeComplexityRun hash contents inf cache =
      (triageVerdict inf,
       ("complexity:" ++ hash (triagePromptOf contents), triageVerdict inf) :: cache,
       1) := by
  simp only [analyzeComplexityRun, hl]
  rfl

theorem analyzeComplexityRun_miss_junk (hash : String → String)
    (contents : List (Option String)) (inf v : String)
    (cache : List (String × String))
    (hl : cache.lookup ("complexity:" ++ hash (triagePromptOf contents)) = some v)
    (hv : ¬(v = "low" ∨ v = "high")) :
    analyzeComplexityRun hash contents inf cache =
      (triageVerdict inf,
       ("complexity:" ++ hash (triagePromptOf contents), triageVerdict inf) :: cache,
       1) := by
  simp only [analyzeComplexityRun, hl]
  rw [show analyzeComplexityCore (Except.ok (some v)) (Except.ok inf) =
      if v = "low" ∨ v = "high" then (v, 0, none)
      else analyzeComplexityMiss (Except.ok inf) from rfl,
    if_neg hv]
  rfl

/-- C8: running complexity triage twice over identical message content in
a fault-free execution issues at most one inference call in total: the
first run makes at most one call (none when its verdict is already
cached) and stores its verdict, and the second run is served from the
cache — zero inference calls — returning the same verdict as the first. -/
theorem C8_triage_cached_second_run :
    ∀ (hash : String → String) (contents : List (Option String))
      (infer1 infer2 : String) (cache : List (String × String)),
      (analyzeComplexityRun hash contents infer2
          (analyzeComplexityRun hash contents infer1 cache).2.1).2.2 = 0 ∧
      (analyzeComplexityRun hash contents infer2
          (analyzeComplexityRun hash contents infer1 cache).2.1).1 =
        (analyzeComplexityRun hash contents infer1 cache).1 ∧
      (analyzeComplexityRun hash contents infer1 cache).2.2 ≤ 1 := by
  intro hash contents infer1 infer2 cache
  have hlook2 : ∀ v : String,
      (("complexity:" ++ hash (triagePromptOf contents), v) :: cache).lookup
        ("complexity:" ++ hash (triagePromptOf contents)) = some v := by
    intro v
    simp [List.lookup]
  cases hl : cache.lookup ("complexity:" ++ hash (triagePromptOf contents)) with
  | some v =>
    by_cases hv : v = "low" ∨ v = "high"
    · have h1 := analyzeComplexityRun_hit hash contents infer1 v cache hl hv
      have h2 := analyzeComplexityRun_hit hash contents infer2 v cache hl hv
      rw [h1]
      simp only []
      rw [h2]
      exact ⟨rfl, rfl, by simp [h1]⟩
    · have h1 := analyzeComplexityRun_miss_junk hash contents infer1 v cache hl hv
      have h2 := analyzeComplexityRun_hit hash contents infer2 (triageVerdict infer1)
        (("complexity:" ++ hash (triagePromptOf contents), triageVerdict infer1) :: cache)
        (hlook2 _) (triageVerdict_cases infer1)
      rw [h1]
      simp only []
      rw [h2]
      exact ⟨rfl, rfl, by simp [h1]⟩
  | none =>
    have h1 := analyzeComplexityRun_miss_none hash contents infer1 cache hl
    have h2 := analyzeComplexityRun_hit hash contents infer2 (triageVerdict infer1)
      (("complexity:" ++ hash (triagePromptOf contents), triageVerdict infer1) :: cache)
      (hlook2 _) (triageVerdict_cases infer1)
    rw [h1]
    simp only []
    rw [h2]
    exact ⟨rfl, rfl, by simp [h1]⟩

/-! ## C9 -/

theorem idxOf?_getElem {c : Char} :
    ∀ {l : List Char} {i : Nat}, idxOf? c l = some i → l[i]? = some c := by
  intro l
  induction l with
  | nil => intro i h; simp [idxOf?] at h
  | cons a rest ih =>
    intro i h
    by_cases hac : a = c
    · rw [idxOf?, if_pos hac] at h
      injection h with h
      subst h
      rw [List.getElem?_cons_zero, hac]
    · rw [idxOf?, if_neg hac] at h
      obtain ⟨j, hj, rfl⟩ := Option.map_eq_some'.mp h
      rw [List.getElem?_cons_succ]
      exact ih hj

theorem lastIdxOf?_getElem {c : Char} :
    ∀ {l : List Char} {i : Nat}, lastIdxOf? c l = some i → l[i]? = some c := by
  intro l
  induction l with
  | nil => intro i h; simp [lastIdxOf?] at h
  | cons a rest ih =>
    intro i h
    rw [lastIdxOf?] at h
    cases hj : lastIdxOf? c rest with
    | some j =>
      rw [hj] at h
      injection h with h
      subst h
      rw [List.getElem?_cons_succ]
      exact ih hj
    | none =>
      rw [hj] at h
      by_cases hac : a = c
      · rw [if_pos hac] at h
        injection h with h
        subst h
        rw [List.getElem?_cons_zero, hac]
      · rw [if_neg hac] at h
        exact absurd h (by simp)

theorem getElem?_some_lt {l : List Char} {i : Nat} {c : Char}
    (h : l[i]? = some c) : i < l.length := by
  by_contra hc
  push_neg at hc
  rw [List.getElem?_eq_none hc] at h
  exact absurd h (by simp)

theorem getLast?_lastIdxOf {c : Char} :
    ∀ {l : List Char}, l.getLast? = some c → lastIdxOf? c l = some (l.length - 1) := by
  intro l
  induction l with
  | nil => intro h; simp at h
  | cons a rest ih =>
    intro h
    cases rest with
    | nil =>
      have ha : a = c := by simpa using h
      subst ha
      simp [lastIdxOf?]
    | cons b t =>
      rw [List.getLast?_cons_cons] at h
      have hr := ih h
      rw [lastIdxOf?, hr]
      simp

theorem slice_head_last {text : List Char} {s l : Nat} {cOpen cClose : Char}
    (hopen : text[s]? = some cOpen) (hclose : text[l]? = some cClose) (hsl : s ≤ l) :
    ∃ tail, (text.drop s).take (l + 1 - s) = cOpen :: tail ∧
      ((text.drop s).take (l + 1 - s)).getLast? = some cClose := by
  have hlen : l < text.length := getElem?_some_lt hclose
  have hexlen : ((text.drop s).take (l + 1 - s)).length = l + 1 - s := by
    rw [List.length_take, List.length_drop]
    exact Nat.min_eq_left (by omega)
  have h0 : ((text.drop s).take (l + 1 - s))[0]? = some cOpen := by
    rw [List.getElem?_take_of_lt (by omega : 0 < l + 1 - s), List.getElem?_drop]
    simpa using hopen
  have hgl : ((text.drop s).take (l + 1 - s)).getLast? = some cClose := by
    rw [List.getLast?_eq_getElem? _, hexlen,
      show l + 1 - s - 1 = l - s from by omega,
      List.getElem?_take_of_lt (by omega : l - s < l + 1 - s), List.getElem?_drop,
      show s + (l - s) = l from by omega]
    exact hclose
  cases hex : (text.drop s).take (l + 1 - s) with
  | nil =>
    rw [hex] at h0
    exact absurd h0 (by simp)
  | cons hd tl =>
    rw [hex] at h0 hgl
    have hhd : hd = cOpen := by simpa using h0
    subst hhd
    exact ⟨tl, rfl, hgl⟩

theorem cleanJSONSlice_stable_brace {tail : List Char}
    (hlast : ('\x7b' :: tail).getLast? = some '\x7d') :
    cleanJSONSlice ('\x7b' :: tail) = some ('\x7b' :: tail) := by
  have hb : idxOf? '\x7b' ('\x7b' :: tail) = some 0 := by simp [idxOf?]
  have hl : lastIdxOf? '\x7d' ('\x7b' :: tail) =
      some (('\x7b' :: tail).length - 1) := getLast?_lastIdxOf hlast
  have hlen : ('\x7b' :: tail).length - 1 + 1 = tail.length + 1 := by simp
  cases hk : idxOf? '[' ('\x7b' :: tail) with
  | none =>
    simp only [cleanJSONSlice, hb, hk, hl, Option.elim, List.length_cons]
    simp
  | some k =>
    have hk2 : ∃ j, k = j + 1 := by
      rw [idxOf?, if_neg (by decide : ¬('\x7b' = '['))] at hk
      obtain ⟨j, _, hj⟩ := Option.map_eq_some'.mp hk
      exact ⟨j, hj.symm⟩
    obtain ⟨j, rfl⟩ := hk2
    simp only [cleanJSONSlice, hb, hk, hl, Option.elim, List.length_cons]
    simp

theorem cleanJSONSlice_stable_bracket {tail : List Char}
    (hlast : ('[' :: tail).getLast? = some ']') :
    cleanJSONSlice ('[' :: tail) = some ('[' :: tail) := by
  have hk : idxOf? '[' ('[' :: tail) = some 0 := by simp [idxOf?]
  have hl : lastIdxOf? ']' ('[' :: tail) =
      some (('[' :: tail).length - 1) := getLast?_lastIdxOf hlast
  have hlen : ('[' :: tail).length - 1 + 1 = tail.length + 1 := by simp
  cases hb : idxOf? '\x7b' ('[' :: tail) with
  | none =>
    simp only [cleanJSONSlice, hb, hk, hl, Option.elim, List.length_cons]
    simp
  | some b =>
    have hb2 : ∃ j, b = j + 1 := by
      rw [idxOf?, if_neg (by decide : ¬('[' = '\x7b'))] at hb
      obtain ⟨j, _, hj⟩ := Option.map_eq_some'.mp hb
      exact ⟨j, hj.symm⟩
    obtain ⟨j, rfl⟩ := hb2
    simp only [cleanJSONSlice, hb, hk, hl, Option.elim, List.length_cons]
    simp

theorem cleanJSONSlice_self {text ex : List Char} (h : cleanJSONSlice text = some ex) :
    cleanJSONSlice ex = some ex := by
  cases hb : idxOf? '\x7b' text with
  | none =>
    cases hk : idxOf? '[' text with
    | none => simp [cleanJSONSlice, hb, hk] at h
    | some k =>
      cases hlk : lastIdxOf? ']' text with
      | none => simp [cleanJSONSlice, hb, hk, hlk] at h
      | some l =>
        simp [cleanJSONSlice, hb, hk, hlk, Option.elim] at h
        obtain ⟨hkl, hsl⟩ := h
        obtain ⟨tail, htl, hlast⟩ := slice_head_last (idxOf?_getElem hk)
          (lastIdxOf?_getElem hlk) (by omega : k ≤ l)
        rw [htl] at hlast
        rw [← hsl, htl]
        exact cleanJSONSlice_stable_bracket hlast
  | some b =>
    cases hk : idxOf? '[' text with
    | none =>
      cases hlb : lastIdxOf? '\x7d' text with
      | none => simp [cleanJSONSlice, hb, hk, hlb] at h
      | some l =>
        simp [cleanJSONSlice, hb, hk, hlb, Option.elim] at h
        obtain ⟨hbl, hsl⟩ := h
        obtain ⟨tail, htl, hlast⟩ := slice_head_last (idxOf?_getElem hb)
          (lastIdxOf?_getElem hlb) (by omega : b ≤ l)
        rw [htl] at hlast
        rw [← hsl, htl]
        exact cleanJSONSlice_stable_brace hlast
    | some k =>
      by_cases hbk : b < k
      · cases hlb : lastIdxOf? '\x7d' text with
        | none => simp [cleanJSONSlice, hb, hk, hlb, Option.elim, hbk] at h
        | some l =>
          simp [cleanJSONSlice, hb, hk, hlb, Option.elim, hbk] at h
          obtain ⟨hbl, hsl⟩ := h
          obtain ⟨tail, htl, hlast⟩ := slice_head_last (idxOf?_getElem hb)
            (lastIdxOf?_getElem hlb) (by omega : b ≤ l)
          rw [htl] at hlast
          rw [← hsl, htl]
          exact cleanJSONSlice_stable_brace hlast
      · cases hlk : lastIdxOf? ']' text with
        | none => simp [cleanJSONSlice, hb, hk, hlk, Option.elim, hbk] at h
        | some l =>
          simp [cleanJSONSlice, hb, hk, hlk, Option.elim, hbk] at h
          obtain ⟨hkl, hsl⟩ := h
          obtain ⟨tail, htl, hlast⟩ := slice_head_last (idxOf?_getElem hk)
            (lastIdxOf?_getElem hlk) (by omega : k ≤ l)
          rw [htl] at hlast
          rw [← hsl, htl]
          exact cleanJSONSlice_stable_bracket hlast

/-- C9: cleanJSON is idempotent for every JSON-validity oracle —
re-running it on its own output returns that output unchanged — and when
the sliced substring fails JSON validation the original text is returned
unchanged rather than raising. -/
theorem C9_cleanJSON_idempotent :
    (∀ (validJSON : List Char → Bool) (text : List Char),
      cleanJSON validJSON (cleanJSON validJSON text) = cleanJSON validJSON text) ∧
    (∀ (validJSON : List Char → Bool) (text ex : List Char),
      cleanJSONSlice text = some ex → validJSON ex = false →
      cleanJSON validJSON text = text) := by
  constructor
  · intro validJSON text
    cases hs : cleanJSONSlice text with
    | none =>
      have h1 : cleanJSON validJSON text = text := by
        simp [cleanJSON, hs]
      rw [h1, h1]
    | some ex =>
      by_cases hv : validJSON ex = true
      · have h1 : cleanJSON validJSON text = ex := by
          simp [cleanJSON, hs, hv]
        have h2 : cleanJSON validJSON ex = ex := by
          simp [cleanJSON, cleanJSONSlice_self hs, hv]
        rw [h1, h2]
      · have hv' : validJSON ex = false := by
          cases hvv : validJSON ex with
          | true => exact absurd hvv hv
          | false => rfl
        have h1 : cleanJSON validJSON text = text := by
          simp [cleanJSON, hs, hv']
        rw [h1, h1]
  · intro validJSON text ex hs hv
    simp [cleanJSON, hs, hv]

/-- Witness for C9 on a concrete text with an embedded brace slice and an
always-rejecting validity oracle. -/
theorem C9_cleanJSON_idempotent_witness :
    cleanJSON (fun _ => false)
        (cleanJSON (fun _ => false) "ab \x7b1\x7d cd".data) =
      cleanJSON (fun _ => false) "ab \x7b1\x7d cd".data ∧
    cleanJSON (fun _ => false) "ab \x7b1\x7d cd".data = "ab \x7b1\x7d cd".data :=
  ⟨C9_cleanJSON_idempotent.1 (fun _ => false) "ab \x7b1\x7d cd".data,
   C9_cleanJSON_idempotent.2 (fun _ => false) "ab \x7b1\x7d cd".data "\x7b1\x7d".data
     (by decide) rfl⟩

/-! ## C10 -/

/-- C10: a Workers-AI request whose tools array is non-empty or whose
response_format requests a JSON object is answered with a non-streaming
response even when stream is requested: the outcome is never the
streaming one and flipping the stream flag does not change the result;
the flag is consulted only on the plain-text path. -/
theorem C10_stream_flag_only_text :
    (∀ (model : String) (tools : List ToolDef) (jsonFormat : Bool) (triage : String)
      (stream : Bool) (m : ModelCapabilities),
      tools ≠ [] ∨ jsonFormat = true →
      workersAiHandle model tools jsonFormat triage stream ≠
        Except.ok (WorkersAiOutcome.textStream m)) ∧
    (∀ (model : String) (tools : List ToolDef) (jsonFormat : Bool) (triage : String),
      tools ≠ [] ∨ jsonFormat = true →
      workersAiHandle model tools jsonFormat triage true =
        workersAiHandle model tools jsonFormat triage false) := by
  constructor
  · intro model tools jsonFormat triage stream m h
    cases hsel : workersAiSelect model tools jsonFormat triage with
    | error e => simp [workersAiHandle, hsel]
    | ok o =>
      cases o with
      | none => simp [workersAiHandle, hsel]
      | some mc =>
        cases tools with
        | cons a r =>
          by_cases hst : mc.supportsTools = true <;>
            simp [workersAiHandle, hsel, hst]
        | nil =>
          rcases h with h | h
          · exact absurd rfl h
          · subst h
            by_cases hjs : mc.supportsJSON = true <;>
              simp [workersAiHandle, hsel, hjs]
  · intro model tools jsonFormat triage h
    cases tools with
    | cons a r => rfl
    | nil =>
      rcases h with h | h
      · exact absurd rfl h
      · subst h
        rfl

/-- Witness for C10 with a concrete tool request and a concrete JSON-mode
request. -/
theorem C10_stream_flag_only_text_witness :
    workersAiHandle "workers-ai" [{ function := { name := "t", description := none } }]
        false "low" true ≠
      Except.ok (WorkersAiOutcome.textStream
        { id := "@cf/meta/llama-3.3-70b-instruct-fp8-fast", name := "Llama 3.3 70B",
          supportsTools := true, supportsJSON := true, supportsStreaming := true,
          complexity := .powerful, contextWindow := 16384 }) ∧
    workersAiHandle "workers-ai" [] true "low" true =
      workersAiHandle "workers-ai" [] true "low" false :=
  ⟨C10_stream_flag_only_text.1 "workers-ai"
      [{ function := { name := "t", description := none } }] false "low" true
      { id := "@cf/meta/llama-3.3-70b-instruct-fp8-fast", name := "Llama 3.3 70B",
        supportsTools := true, supportsJSON := true, supportsStreaming := true,
        complexity := .powerful, contextWindow := 16384 }
      (Or.inl (by decide)),
   C10_stream_flag_only_text.2 "workers-ai" [] true "low" (Or.inr rfl)⟩
